import Mathlib

/-!
Verification development for the Correcto writing assistant
(src/Correcto.py). Python strings are modelled as `List Char` (a Python
`str` is a sequence of code points). The regular-expression scans of the
style checkers are embedded as concrete left-to-right, non-overlapping
scanners over `List Char`, specialised to the patterns the program uses;
their declarative reading (one match per non-overlapping occurrence) is
stated through the `MatchList` relation below and proved against the
scanners.

Character classes: Python's `re` module on `str` uses Unicode classes.
The tables and patterns of this program only exercise ASCII together with
the Latin-1 letters of French and the ligature `œ`, so `isWordChar`,
`isSpaceChar` and `lowerChar` model `\w`, `\s`, `str.lower`/`re.IGNORECASE`
on that fragment.
-/

/-- Python `\w` on the character fragment this program exercises:
ASCII alphanumerics, underscore, the Latin-1 letters `À`..`ÿ` (excluding
`×` and `÷`), and `Œ`/`œ`. -/
def isWordChar (c : Char) : Bool :=
  c.isAlphanum || c = '_' ||
    (0xC0 ≤ c.toNat && c.toNat ≤ 0xFF && c.toNat ≠ 0xD7 && c.toNat ≠ 0xF7) ||
    c = 'œ' || c = 'Œ'

/-- Python `\s` on the ASCII fragment: space, tab, newline, carriage
return, vertical tab, form feed. -/
def isSpaceChar (c : Char) : Bool :=
  c = ' ' || c = '\t' || c = '\n' || c = '\r' || c = '\x0b' || c = '\x0c'

/-- Uppercase-to-lowercase table for the fragment: ASCII letters, the
Latin-1 uppercase letters, and `Œ`. -/
def lowerPairs : List (Char × Char) :=
  [('A', 'a'), ('B', 'b'), ('C', 'c'), ('D', 'd'), ('E', 'e'), ('F', 'f'),
   ('G', 'g'), ('H', 'h'), ('I', 'i'), ('J', 'j'), ('K', 'k'), ('L', 'l'),
   ('M', 'm'), ('N', 'n'), ('O', 'o'), ('P', 'p'), ('Q', 'q'), ('R', 'r'),
   ('S', 's'), ('T', 't'), ('U', 'u'), ('V', 'v'), ('W', 'w'), ('X', 'x'),
   ('Y', 'y'), ('Z', 'z'),
   ('À', 'à'), ('Á', 'á'), ('Â', 'â'), ('Ã', 'ã'), ('Ä', 'ä'), ('Å', 'å'),
   ('Æ', 'æ'), ('Ç', 'ç'), ('È', 'è'), ('É', 'é'), ('Ê', 'ê'), ('Ë', 'ë'),
   ('Ì', 'ì'), ('Í', 'í'), ('Î', 'î'), ('Ï', 'ï'), ('Ð', 'ð'), ('Ñ', 'ñ'),
   ('Ò', 'ò'), ('Ó', 'ó'), ('Ô', 'ô'), ('Õ', 'õ'), ('Ö', 'ö'), ('Ø', 'ø'),
   ('Ù', 'ù'), ('Ú', 'ú'), ('Û', 'û'), ('Ü', 'ü'), ('Ý', 'ý'), ('Þ', 'þ'),
   ('Œ', 'œ')]

/-- Case folding of one character; models Python `str.lower` and the
effect of `re.IGNORECASE` on the fragment above. -/
def lowerChar (c : Char) : Char :=
  ((lowerPairs.find? (fun p => p.1 = c)).map Prod.snd).getD c

/-- Python `str.lower` on a whole string. -/
def lowerList (l : List Char) : List Char := l.map lowerChar

theorem lowerChar_idem (c : Char) : lowerChar (lowerChar c) = lowerChar c := by
  unfold lowerChar
  cases h : lowerPairs.find? (fun p => p.1 = c) with
  | none => simp [h]
  | some p =>
    have hmem : p ∈ lowerPairs := List.mem_of_find?_eq_some h
    have hnone : lowerPairs.find? (fun q => q.1 = p.2) = none := by
      apply List.find?_eq_none.mpr
      intro q hq
      have : ∀ q ∈ lowerPairs, ∀ r ∈ lowerPairs, ¬ (q.1 = r.2) := by decide
      simpa using this q hq p hmem
    simp [h, hnone]

theorem isWordChar_lowerChar (c : Char) :
    isWordChar (lowerChar c) = isWordChar c := by
  unfold lowerChar
  cases h : lowerPairs.find? (fun p => p.1 = c) with
  | none => simp
  | some p =>
    have hmem : p ∈ lowerPairs := List.mem_of_find?_eq_some h
    have hp : p.1 = c := by
      have := List.find?_some h
      simpa using this
    have : ∀ q ∈ lowerPairs, isWordChar q.2 = isWordChar q.1 := by decide
    simp [this p hmem, hp]

theorem not_word_of_space {c : Char} (h : isSpaceChar c = true) :
    isWordChar c = false := by
  simp only [isSpaceChar, Bool.or_eq_true, decide_eq_true_eq] at h
  rcases h with ((((h | h) | h) | h) | h) | h <;> subst h <;> decide

theorem lowerList_length (l : List Char) : (lowerList l).length = l.length :=
  List.length_map ..

/-! List scanning helpers. -/

theorem takeWhile_append_all {p : Char → Bool} {a b : List Char}
    (ha : ∀ c ∈ a, p c = true) (hb : ∀ c, b.head? = some c → p c = false) :
    (a ++ b).takeWhile p = a ∧ (a ++ b).dropWhile p = b := by
  induction a with
  | nil =>
    cases b with
    | nil => simp
    | cons c t =>
      have : p c = false := hb c rfl
      simp [List.takeWhile, List.dropWhile, this]
  | cons x xs ih =>
    have hx : p x = true := ha x (List.mem_cons_self ..)
    have ih' := ih (fun c hc => ha c (List.mem_cons_of_mem _ hc))
    simp [List.takeWhile, List.dropWhile, hx, ih'.1, ih'.2]

theorem head?_dropWhile_false (p : Char → Bool) (l : List Char) :
    ∀ c, (l.dropWhile p).head? = some c → p c = false := by
  induction l with
  | nil => intro c h; simp at h
  | cons x xs ih =>
    intro c h
    by_cases hx : p x = true
    · exact ih c (by simpa [List.dropWhile, hx] using h)
    · have hx' : p x = false := by simpa using hx
      rw [List.dropWhile_cons, hx'] at h
      simp at h
      subst h; exact hx'

theorem find?_eq_some_of_unique {α : Type} (l : List α) (p : α → Bool) (v : α)
    (hv : v ∈ l) (hpv : p v = true) (huniq : ∀ u ∈ l, p u = true → u = v) :
    l.find? p = some v := by
  induction l with
  | nil => simp at hv
  | cons a t ih =>
    by_cases hpa : p a = true
    · have : a = v := huniq a (List.mem_cons_self ..) hpa
      subst this
      simp [List.find?, hpa]
    · have hpa' : p a = false := by simpa using hpa
      have hvt : v ∈ t := by
        rcases List.mem_cons.mp hv with h | h
        · subst h; rw [hpv] at hpa'; cases hpa'
        · exact h
      rw [List.find?, hpa']
      exact ih hvt (fun u hu => huniq u (List.mem_cons_of_mem _ hu))

/-- `v` is a case-insensitive literal prefix of `s`: the first `v.length`
characters of `s` fold to `v`. This is how each regex alternative of this
program matches at a position under `re.IGNORECASE` (the alternatives are
lowercase literals). -/
def prefixCI (v s : List Char) : Bool := decide (lowerList (s.take v.length) = v)

theorem prefixCI_take {v s : List Char} (h : prefixCI v s = true) :
    v = (lowerList s).take v.length ∧ v.length ≤ s.length := by
  have hv : lowerList (s.take v.length) = v := by simpa [prefixCI] using h
  constructor
  · rw [← hv]; simp [lowerList, List.map_take]
  · have hlen : (s.take v.length).length = v.length := by
      rw [← hv]; simp [lowerList]
    have := List.length_take v.length s
    omega

/-- Among forms none of which is a proper prefix of another, at most one
is a case-insensitive prefix of `s`. -/
theorem prefixCI_unique {forms : List (List Char)}
    (hforms : ∀ u ∈ forms, ∀ w ∈ forms, u = w.take u.length → u = w)
    {s : List Char} {v : List Char} (hv : v ∈ forms)
    (hp : prefixCI v s = true) :
    ∀ u ∈ forms, prefixCI u s = true → u = v := by
  intro u hu hpu
  obtain ⟨hu1, -⟩ := prefixCI_take hpu
  obtain ⟨hv1, -⟩ := prefixCI_take hp
  rcases Nat.le_total u.length v.length with hle | hle
  · have h2 : v.take u.length = u := by
      rw [hv1, List.take_take, Nat.min_eq_left hle, ← hu1]
    exact hforms u hu v hv h2.symm
  · have h2 : u.take v.length = v := by
      rw [hu1, List.take_take, Nat.min_eq_left hle, ← hv1]
    exact (hforms v hv u hu h2.symm).symm

/-- Word boundary `\b` of the regexes before position `i`: every pattern
of this program starts with a word character, so the boundary holds
exactly when `i` is the start of the text or the previous character is a
non-word character. -/
def bBefore (cs : List Char) (i : Nat) : Bool :=
  match i with
  | 0 => true
  | k + 1 => !(isWordChar (cs.getD k ' '))

/-- Word boundary `\b` after a word character, at position `p`: the text
ends there or continues with a non-word character. -/
def bAt (cs : List Char) (p : Nat) : Bool := !(isWordChar (cs.getD p ' '))

/-! The generic left-to-right non-overlapping scan (`re.finditer`):
from the current position, the next match is the leftmost one, and
scanning resumes at its end. -/

/-- One pass of the scan; `fuel` bounds the recursion (each step advances
the position by at least one). Returns the list of `(start, length)`
pairs. -/
def scanAux (f : List Char → Nat → Option Nat) (cs : List Char) :
    Nat → Nat → List (Nat × Nat)
  | 0, _ => []
  | fuel + 1, i =>
    if i ≤ cs.length then
      match f cs i with
      | some n => (i, n) :: scanAux f cs fuel (i + max n 1)
      | none => scanAux f cs fuel (i + 1)
    else []

/-- All matches of the position matcher `f` over `cs`, leftmost first,
non-overlapping: the embedding of `re.finditer` for this program's
patterns. -/
def scan (f : List Char → Nat → Option Nat) (cs : List Char) :
    List (Nat × Nat) :=
  scanAux f cs (cs.length + 1) 0

/-- Declarative reading of a non-overlapping left-to-right match list
for the per-position match relation `M`: starting from position `p`,
the list holds every match in order, each being the leftmost one after
the end of the previous. -/
inductive MatchList (M : Nat → Nat → Prop) : Nat → List (Nat × Nat) → Prop where
  | nil : ∀ p, (∀ j n, p ≤ j → ¬ M j n) → MatchList M p []
  | cons : ∀ p i n ms, p ≤ i → M i n →
      (∀ j m, p ≤ j → j < i → ¬ M j m) →
      MatchList M (i + n) ms → MatchList M p ((i, n) :: ms)

theorem MatchList.weaken {M : Nat → Nat → Prop} {p : Nat} {ms : List (Nat × Nat)}
    (hnp : ∀ n, ¬ M p n) (h : MatchList M (p + 1) ms) : MatchList M p ms := by
  cases h with
  | nil _ hno =>
    refine MatchList.nil p (fun j n hj => ?_)
    rcases Nat.eq_or_lt_of_le hj with h | h
    · subst h; exact hnp n
    · exact hno j n h
  | cons _ i n ms hpi hM hmin hrest =>
    refine MatchList.cons p i n ms (by omega) hM (fun j m hj hji => ?_) hrest
    rcases Nat.eq_or_lt_of_le hj with h | h
    · subst h; exact hnp m
    · exact hmin j m h hji

theorem scanAux_matchList {M : Nat → Nat → Prop}
    {f : List Char → Nat → Option Nat} {cs : List Char}
    (hiff : ∀ i n, M i n ↔ f cs i = some n)
    (hbound : ∀ i n, f cs i = some n → 1 ≤ n ∧ i + n ≤ cs.length) :
    ∀ fuel p, cs.length + 1 ≤ fuel + p →
      MatchList M p (scanAux f cs fuel p) := by
  intro fuel
  induction fuel with
  | zero =>
    intro p hp
    refine MatchList.nil p (fun j n hj hM => ?_)
    have := hbound j n ((hiff j n).mp hM)
    omega
  | succ fu ih =>
    intro p hp
    by_cases hpl : p ≤ cs.length
    · rw [scanAux, if_pos hpl]
      cases hf : f cs p with
      | some n =>
        have hb := hbound p n hf
        have hmax : max n 1 = n := by omega
        show MatchList M p ((p, n) :: scanAux f cs fu (p + max n 1))
        rw [hmax]
        exact MatchList.cons p p n _ (Nat.le_refl p) ((hiff p n).mpr hf)
          (fun j m hj hji => by omega) (ih (p + n) (by omega))
      | none =>
        refine MatchList.weaken (fun n hM => ?_) (ih (p + 1) (by omega))
        rw [(hiff p n).mp hM] at hf
        cases hf
    · rw [scanAux, if_neg hpl]
      refine MatchList.nil p (fun j n hj hM => ?_)
      have := hbound j n ((hiff j n).mp hM)
      omega

theorem scan_matchList {M : Nat → Nat → Prop}
    {f : List Char → Nat → Option Nat} {cs : List Char}
    (hiff : ∀ i n, M i n ↔ f cs i = some n)
    (hbound : ∀ i n, f cs i = some n → 1 ≤ n ∧ i + n ≤ cs.length) :
    MatchList M 0 (scan f cs) :=
  scanAux_matchList hiff hbound (cs.length + 1) 0 (by omega)

/-- A per-position match relation that determines the match length has a
unique non-overlapping left-to-right match list. -/
theorem MatchList.unique {M : Nat → Nat → Prop}
    (hfun : ∀ i n n', M i n → M i n' → n = n') :
    ∀ {p : Nat} {ms ms' : List (Nat × Nat)},
      MatchList M p ms → MatchList M p ms' → ms = ms' := by
  intro p ms
  induction ms generalizing p with
  | nil =>
    intro ms' h h'
    cases h with
    | nil _ hno =>
      cases h' with
      | nil => rfl
      | cons _ i n ms₂ hpi hM => exact absurd hM (hno i n hpi)
  | cons hd tl ih =>
    intro ms' h h'
    cases h with
    | cons _ i n ms₁ hpi hM hmin hrest =>
      cases h' with
      | nil _ hno => exact absurd hM (hno i n hpi)
      | cons _ i' n' ms₂ hpi' hM' hmin' hrest' =>
        have hii : i = i' := by
          rcases Nat.lt_trichotomy i i' with h | h | h
          · exact absurd hM (hmin' i n hpi h)
          · exact h
          · exact absurd hM' (hmin i' n' hpi' h)
        subst hii
        have hnn : n = n' := hfun i n n' hM hM'
        subst hnn
        exact congrArg _ (ih hrest hrest')

/-! Helpers relating positions in `cs` to a decomposition of `cs.drop i`. -/

theorem not_space_of_word {c : Char} (h : isWordChar c = true) :
    isSpaceChar c = false := by
  cases hs : isSpaceChar c with
  | false => rfl
  | true => rw [not_word_of_space hs] at h; cases h

theorem getElem?_append_off {α : Type} (a b : List α) (k : Nat) :
    (a ++ b)[a.length + k]? = b[k]? := by
  induction a with
  | nil => simp
  | cons x xs ih => simpa [Nat.succ_add] using ih

theorem getD_drop_append {cs vt rest : List Char} {i : Nat}
    (hdec : cs.drop i = vt ++ rest) (k : Nat) :
    cs.getD (i + (vt.length + k)) ' ' = (rest.getD k ' ') := by
  have h1 : cs[i + (vt.length + k)]? = (cs.drop i)[vt.length + k]? :=
    (List.getElem?_drop ..).symm
  have h2 : (vt ++ rest)[vt.length + k]? = rest[k]? := getElem?_append_off vt rest k
  rw [List.getD_eq_getElem?_getD, List.getD_eq_getElem?_getD, h1, hdec, h2]

theorem getD_zero_head {l : List Char} (d : Char) : l.getD 0 d = l.head?.getD d := by
  cases l <;> rfl

/-- At most one form can match at a position when each one must be followed
by a word boundary, provided that whenever one form is a proper prefix of
another, the longer one continues with a word character there. -/
theorem prefixCI_bAt_unique {forms : List (List Char)}
    (hforms : ∀ u ∈ forms, ∀ w ∈ forms, u = w.take u.length →
      u = w ∨ isWordChar (w.getD u.length ' ') = true)
    {cs : List Char} {i : Nat} {v : List Char} (hv : v ∈ forms)
    (hp : prefixCI v (cs.drop i) = true) (hbv : bAt cs (i + v.length) = true) :
    ∀ u ∈ forms, (prefixCI u (cs.drop i) && bAt cs (i + u.length)) = true → u = v := by
  have key : ∀ u ∈ forms, ∀ w ∈ forms, prefixCI u (cs.drop i) = true →
      prefixCI w (cs.drop i) = true → u.length ≤ w.length →
      bAt cs (i + u.length) = true → u = w := by
    intro u hu w hw hpu hpw hle hbu
    obtain ⟨hu1, -⟩ := prefixCI_take hpu
    obtain ⟨hw1, hwl⟩ := prefixCI_take hpw
    have h2 : u = w.take u.length := by
      rw [hw1, List.take_take, Nat.min_eq_left hle, ← hu1]
    rcases Nat.lt_or_ge u.length w.length with hlt | hge
    · rcases hforms u hu w hw h2 with h | h
      · exact h
      · exfalso
        have hs1 : (cs.drop i)[u.length]? = some ((cs.drop i).get ⟨u.length, by
            have := List.length_drop i cs; omega⟩) :=
          List.getElem?_eq_getElem (by have := List.length_drop i cs; omega)
        have hwchar : w.getD u.length ' ' =
            lowerChar ((cs.drop i).get ⟨u.length, by
              have := List.length_drop i cs; omega⟩) := by
          rw [List.getD_eq_getElem?_getD]
          conv_lhs => rw [hw1]
          rw [List.getElem?_take, if_pos hlt]
          rw [lowerList, List.getElem?_map, hs1]
          rfl
        have hcs : cs.getD (i + u.length) ' ' =
            (cs.drop i).get ⟨u.length, by have := List.length_drop i cs; omega⟩ := by
          rw [List.getD_eq_getElem?_getD]
          have : cs[i + u.length]? = (cs.drop i)[u.length]? :=
            (List.getElem?_drop ..).symm
          rw [this, hs1]
          rfl
        rw [hwchar, isWordChar_lowerChar] at h
        have hb' : isWordChar (cs.getD (i + u.length) ' ') = false := by
          have hb2 := hbu
          unfold bAt at hb2
          simpa using hb2
        rw [hcs, h] at hb'
        cases hb'
    · have : u.length = w.length := by omega
      rw [h2, this, List.take_length ..]
  intro u hu hcomb
  rw [Bool.and_eq_true] at hcomb
  obtain ⟨hpu, hbu⟩ := hcomb
  rcases Nat.le_total u.length v.length with hle | hle
  · exact key u hu v hv hpu hp hle hbu
  · exact (key v hv u hu hp hpu hle hbv).symm

/-! The word-alternation matcher: the shape of the patterns
`\b(w1|w2|...)\b` under `re.IGNORECASE`. Python's engine tries the
alternatives in order with backtracking; for the concrete alternative
lists of this program at most one alternative can match at a position
(none is a proper prefix of another that continues with a non-word
character), so trying them with `find?` is equivalent. -/

def altMatch (forms : List (List Char)) (cs : List Char) (i : Nat) : Option Nat :=
  if bBefore cs i then
    match forms.find? (fun v => prefixCI v (cs.drop i) && bAt cs (i + v.length)) with
    | some v => some v.length
    | none => none
  else none

/-- Declarative per-position match of `\b(w1|w2|...)\b`: some form `v`,
case-insensitively, as a whole word starting at `i`. -/
def AltM (forms : List (List Char)) (cs : List Char) (i n : Nat) : Prop :=
  bBefore cs i = true ∧
  ∃ v vt rest, v ∈ forms ∧ lowerList vt = v ∧
    cs.drop i = vt ++ rest ∧
    (∀ c, rest.head? = some c → isWordChar c = false) ∧
    n = vt.length

theorem bAt_of_rest {cs vt rest : List Char} {i : Nat}
    (hdec : cs.drop i = vt ++ rest)
    (hrest : ∀ c, rest.head? = some c → isWordChar c = false) :
    bAt cs (i + vt.length) = true := by
  have h := getD_drop_append hdec 0
  rw [getD_zero_head] at h
  unfold bAt
  rw [show i + vt.length = i + (vt.length + 0) by omega, h]
  cases hr : rest.head? with
  | none => decide
  | some c => simp [hrest c hr]

theorem head?_of_bAt (vt : List Char) {cs rest : List Char} {i : Nat}
    (hdec : cs.drop i = vt ++ rest)
    (hb : bAt cs (i + vt.length) = true) :
    ∀ c, rest.head? = some c → isWordChar c = false := by
  intro c hc
  have h := getD_drop_append hdec 0
  rw [getD_zero_head, hc] at h
  unfold bAt at hb
  rw [show i + vt.length = i + (vt.length + 0) by omega, h] at hb
  simpa using hb

theorem altMatch_iff (forms : List (List Char))
    (hforms : ∀ u ∈ forms, ∀ w ∈ forms, u = w.take u.length →
      u = w ∨ isWordChar (w.getD u.length ' ') = true)
    (cs : List Char) (i n : Nat) :
    altMatch forms cs i = some n ↔ AltM forms cs i n := by
  constructor
  · intro h
    unfold altMatch at h
    by_cases hb : bBefore cs i = true
    case neg => rw [if_neg hb] at h; cases h
    rw [if_pos hb] at h
    cases hfind : forms.find? (fun v => prefixCI v (cs.drop i) && bAt cs (i + v.length)) with
    | none => rw [hfind] at h; cases h
    | some v =>
      rw [hfind] at h
      have hn : n = v.length := by
        have := h.symm
        simpa using this
      have hvmem : v ∈ forms := List.mem_of_find?_eq_some hfind
      have hpred := List.find?_some hfind
      rw [Bool.and_eq_true] at hpred
      obtain ⟨hpre, hbat⟩ := hpred
      obtain ⟨-, hvlen⟩ := prefixCI_take hpre
      have hvt : lowerList ((cs.drop i).take v.length) = v := by
        simpa [prefixCI] using hpre
      have hvtlen : ((cs.drop i).take v.length).length = v.length := by
        rw [List.length_take]
        have := List.length_drop i cs
        omega
      refine ⟨hb, v, (cs.drop i).take v.length, (cs.drop i).drop v.length,
        hvmem, hvt, (List.take_append_drop ..).symm, ?_, by rw [hn, hvtlen]⟩
      intro c hc
      refine head?_of_bAt ((cs.drop i).take v.length)
        (List.take_append_drop ..).symm ?_ c hc
      rw [hvtlen]
      exact hbat
  · intro h
    obtain ⟨hb, v, vt, rest, hvmem, hvt, hdec, hrest, hn⟩ := h
    have hlen : vt.length = v.length := by
      rw [← hvt]; simp [lowerList]
    have hpre : prefixCI v (cs.drop i) = true := by
      have htake : (cs.drop i).take v.length = vt := by
        rw [hdec, ← hlen]
        exact List.take_left ..
      simp [prefixCI, htake, hvt]
    have hbat : bAt cs (i + v.length) = true := by
      rw [← hlen]
      exact bAt_of_rest hdec hrest
    have hfind : forms.find?
        (fun u => prefixCI u (cs.drop i) && bAt cs (i + u.length)) = some v :=
      find?_eq_some_of_unique _ _ v hvmem
        (by rw [Bool.and_eq_true]; exact ⟨hpre, hbat⟩)
        (prefixCI_bAt_unique hforms hvmem hpre hbat)
    unfold altMatch
    rw [if_pos hb, hfind, hn, hlen]

theorem altMatch_bound (forms : List (List Char))
    (hne : ∀ v ∈ forms, v ≠ []) (cs : List Char) (i n : Nat)
    (h : altMatch forms cs i = some n) : 1 ≤ n ∧ i + n ≤ cs.length := by
  unfold altMatch at h
  by_cases hb : bBefore cs i = true
  case neg => rw [if_neg hb] at h; cases h
  rw [if_pos hb] at h
  cases hfind : forms.find? (fun v => prefixCI v (cs.drop i) && bAt cs (i + v.length)) with
  | none => rw [hfind] at h; cases h
  | some v =>
    rw [hfind] at h
    have hn : n = v.length := by simpa using h.symm
    have hvmem : v ∈ forms := List.mem_of_find?_eq_some hfind
    have hpred := List.find?_some hfind
    rw [Bool.and_eq_true] at hpred
    obtain ⟨-, hvlen⟩ := prefixCI_take hpred.1
    have hvne : v ≠ [] := hne v hvmem
    have hvpos : 0 < v.length := List.length_pos.mpr hvne
    have := List.length_drop i cs
    omega

/-! The continuation `\s+\w+...\b` shared by the two passive-voice
patterns: after the verb form, at least one whitespace character, then a
maximal run of word characters of length at least `m` whose folded form
ends in `suf` (`ed` for English, `é` for French). The trailing `\b`
makes the word run maximal, and backtracking inside `\w+` only succeeds
when the run itself ends in the suffix. -/

def tailMatch (m : Nat) (suf : List Char) (r : List Char) : Option (Nat × Nat) :=
  if 1 ≤ (r.takeWhile isSpaceChar).length ∧
      m ≤ ((r.dropWhile isSpaceChar).takeWhile isWordChar).length ∧
      lowerList (((r.dropWhile isSpaceChar).takeWhile isWordChar).drop
        (((r.dropWhile isSpaceChar).takeWhile isWordChar).length - suf.length)) = suf then
    some ((r.takeWhile isSpaceChar).length,
      ((r.dropWhile isSpaceChar).takeWhile isWordChar).length)
  else none

theorem head_append_not_space {wd : List Char} (rest : List Char) (hw : 0 < wd.length)
    (hall : ∀ c ∈ wd, isWordChar c = true) :
    ∀ c, (wd ++ rest).head? = some c → isSpaceChar c = false := by
  cases wd with
  | nil => simp at hw
  | cons x xs =>
    intro c hc
    simp at hc
    subst hc
    exact not_space_of_word (hall x (List.mem_cons_self ..))

theorem tailMatch_iff (m : Nat) (suf : List Char) (hm : 1 ≤ m)
    (r : List Char) (a b : Nat) :
    tailMatch m suf r = some (a, b) ↔
    ∃ sp wd rest, r = sp ++ (wd ++ rest) ∧ sp ≠ [] ∧
      (∀ c ∈ sp, isSpaceChar c = true) ∧
      m ≤ wd.length ∧ (∀ c ∈ wd, isWordChar c = true) ∧
      lowerList (wd.drop (wd.length - suf.length)) = suf ∧
      (∀ c, rest.head? = some c → isWordChar c = false) ∧
      a = sp.length ∧ b = wd.length := by
  constructor
  · intro h
    unfold tailMatch at h
    split at h
    case isFalse => cases h
    case isTrue hcond =>
      obtain ⟨h1, h2, h3⟩ := hcond
      have hinj : (r.takeWhile isSpaceChar).length = a ∧
          ((r.dropWhile isSpaceChar).takeWhile isWordChar).length = b := by
        have := h
        simp at this
        exact this
      refine ⟨r.takeWhile isSpaceChar,
        (r.dropWhile isSpaceChar).takeWhile isWordChar,
        (r.dropWhile isSpaceChar).dropWhile isWordChar, ?_, ?_, ?_, h2, ?_, h3, ?_,
        hinj.1.symm, hinj.2.symm⟩
      · rw [List.takeWhile_append_dropWhile, List.takeWhile_append_dropWhile]
      · intro hnil
        rw [hnil] at h1
        simp at h1
      · intro c hc
        exact List.mem_takeWhile_imp hc
      · intro c hc
        exact List.mem_takeWhile_imp hc
      · exact head?_dropWhile_false isWordChar _
  · intro h
    obtain ⟨sp, wd, rest, hr, hspne, hsp, hwm, hwall, hsuf, hrest, ha, hb⟩ := h
    have hwpos : 0 < wd.length := by omega
    have hsprun := takeWhile_append_all (p := isSpaceChar) (a := sp) (b := wd ++ rest)
      hsp (head_append_not_space rest hwpos hwall)
    have hwdrun := takeWhile_append_all (p := isWordChar) (a := wd) (b := rest)
      hwall hrest
    unfold tailMatch
    rw [hr, hsprun.1, hsprun.2, hwdrun.1]
    rw [if_pos ⟨List.length_pos.mpr hspne, hwm, hsuf⟩]
    rw [ha, hb]

/-! English passive voice: `detect_passive_voice_en` scans the text with
the pattern `\b(am|are|is|was|were|been|being)\s+\w+ed\b` under
`re.IGNORECASE` (src/Correcto.py, lines 282-288). No alternative of the
group is a prefix of another, so at most one alternative can literally
match at a position; the alternation order of the engine therefore does
not matter, and a form followed by anything but whitespace fails the
whole position. -/

def beFormsEn : List (List Char) :=
  ["am", "are", "is", "was", "were", "been", "being"].map String.toList

def matchPassiveEnAt (cs : List Char) (i : Nat) : Option Nat :=
  if bBefore cs i then
    (beFormsEn.find? (fun v => prefixCI v (cs.drop i))).bind (fun v =>
      (tailMatch 3 ['e', 'd'] ((cs.drop i).drop v.length)).map (fun ab =>
        v.length + ab.1 + ab.2))
  else none

/-- Declarative reading of one match of the English passive-voice
pattern at position `i` with length `n`: a form of _be_ (up to case),
then at least one whitespace character, then a whole word of length at
least 3 whose folded form ends in `ed`. -/
def EnPassiveM (cs : List Char) (i n : Nat) : Prop :=
  bBefore cs i = true ∧
  ∃ v vt sp wd rest,
    v ∈ beFormsEn ∧ lowerList vt = v ∧
    sp ≠ [] ∧ (∀ c ∈ sp, isSpaceChar c = true) ∧
    3 ≤ wd.length ∧ (∀ c ∈ wd, isWordChar c = true) ∧
    lowerList (wd.drop (wd.length - 2)) = ['e', 'd'] ∧
    (∀ c, rest.head? = some c → isWordChar c = false) ∧
    cs.drop i = vt ++ (sp ++ (wd ++ rest)) ∧
    n = vt.length + sp.length + wd.length

theorem matchPassiveEnAt_iff (cs : List Char) (i n : Nat) :
    matchPassiveEnAt cs i = some n ↔ EnPassiveM cs i n := by
  constructor
  · intro h
    unfold matchPassiveEnAt at h
    by_cases hb : bBefore cs i = true
    case neg => rw [if_neg hb] at h; cases h
    rw [if_pos hb] at h
    cases hfind : beFormsEn.find? (fun v => prefixCI v (cs.drop i)) with
    | none => rw [hfind] at h; cases h
    | some v =>
      rw [hfind, Option.some_bind] at h
      cases htail : tailMatch 3 ['e', 'd'] ((cs.drop i).drop v.length) with
      | none => rw [htail] at h; cases h
      | some ab =>
        rw [htail, Option.map_some'] at h
        obtain ⟨a, b⟩ := ab
        have hn : n = v.length + a + b := by simpa using h.symm
        have hvmem : v ∈ beFormsEn := List.mem_of_find?_eq_some hfind
        have hpre : prefixCI v (cs.drop i) = true := by
          simpa using List.find?_some hfind
        obtain ⟨-, hvlen⟩ := prefixCI_take hpre
        have hvt : lowerList ((cs.drop i).take v.length) = v := by
          simpa [prefixCI] using hpre
        have hvtlen : ((cs.drop i).take v.length).length = v.length := by
          rw [List.length_take]
          have := List.length_drop i cs
          omega
        obtain ⟨sp, wd, rest, hr, hspne, hsp, hwm, hwall, hsuf, hrest, ha, hbb⟩ :=
          (tailMatch_iff 3 ['e', 'd'] (by omega) _ a b).mp htail
        refine ⟨hb, v, (cs.drop i).take v.length, sp, wd, rest,
          hvmem, hvt, hspne, hsp, hwm, hwall, hsuf, hrest, ?_, ?_⟩
        · rw [← hr]
          exact (List.take_append_drop ..).symm
        · rw [hn, hvtlen, ha, hbb]
  · intro h
    obtain ⟨hb, v, vt, sp, wd, rest, hvmem, hvt, hspne, hsp, hwm, hwall,
      hsuf, hrest, hdec, hn⟩ := h
    have hlen : vt.length = v.length := by
      rw [← hvt]; simp [lowerList]
    have hpre : prefixCI v (cs.drop i) = true := by
      have htake : (cs.drop i).take v.length = vt := by
        rw [hdec, ← hlen]
        exact List.take_left ..
      simp [prefixCI, htake, hvt]
    have hforms : ∀ u ∈ beFormsEn, ∀ w ∈ beFormsEn, u = w.take u.length → u = w := by
      decide
    have hfind : beFormsEn.find? (fun u => prefixCI u (cs.drop i)) = some v :=
      find?_eq_some_of_unique _ _ v hvmem hpre (prefixCI_unique hforms hvmem hpre)
    have hdrop : (cs.drop i).drop v.length = sp ++ (wd ++ rest) := by
      rw [hdec, ← hlen]
      exact List.drop_left ..
    have htail : tailMatch 3 ['e', 'd'] ((cs.drop i).drop v.length) =
        some (sp.length, wd.length) := by
      rw [hdrop]
      exact (tailMatch_iff 3 ['e', 'd'] (by omega) _ _ _).mpr
        ⟨sp, wd, rest, rfl, hspne, hsp, hwm, hwall, hsuf, hrest, rfl, rfl⟩
    unfold matchPassiveEnAt
    rw [if_pos hb, hfind, Option.some_bind, htail, Option.map_some', hn, hlen]

theorem matchPassiveEnAt_bound (cs : List Char) (i n : Nat)
    (h : matchPassiveEnAt cs i = some n) : 1 ≤ n ∧ i + n ≤ cs.length := by
  rw [matchPassiveEnAt_iff] at h
  obtain ⟨-, v, vt, sp, wd, rest, -, -, -, -, hwm, -, -, -, hdec, hn⟩ := h
  have h1 : (cs.drop i).length = cs.length - i := List.length_drop ..
  rw [hdec] at h1
  simp [List.length_append] at h1
  omega

/-! French passive voice: `detect_passive_voice_fr` scans with
`(\b(suis|es|est|sommes|êtes|sont)\b)\s+\w+[é]\b` under `re.IGNORECASE`
(src/Correcto.py, lines 290-296). Here the group carries its own
trailing `\b`; `es` is a prefix of `est`, and exactly there the longer
alternative continues with a word character, so with the boundary at
most one alternative survives at a position and `find?` again matches
the engine's backtracking. -/

def etreForms : List (List Char) :=
  ["suis", "es", "est", "sommes", "êtes", "sont"].map String.toList

def matchPassiveFrAt (cs : List Char) (i : Nat) : Option Nat :=
  if bBefore cs i then
    (etreForms.find? (fun v => prefixCI v (cs.drop i) && bAt cs (i + v.length))).bind
      (fun v =>
        (tailMatch 2 ['é'] ((cs.drop i).drop v.length)).map (fun ab =>
          v.length + ab.1 + ab.2))
  else none

/-- Declarative reading of one match of the French passive-voice pattern
at position `i` with length `n`: a present-tense form of _être_ as a
whole word (up to case), then at least one whitespace character, then a
whole word of length at least 2 whose folded form ends in `é`. -/
def FrPassiveM (cs : List Char) (i n : Nat) : Prop :=
  bBefore cs i = true ∧
  ∃ v vt sp wd rest,
    v ∈ etreForms ∧ lowerList vt = v ∧
    sp ≠ [] ∧ (∀ c ∈ sp, isSpaceChar c = true) ∧
    2 ≤ wd.length ∧ (∀ c ∈ wd, isWordChar c = true) ∧
    lowerList (wd.drop (wd.length - 1)) = ['é'] ∧
    (∀ c, rest.head? = some c → isWordChar c = false) ∧
    cs.drop i = vt ++ (sp ++ (wd ++ rest)) ∧
    n = vt.length + sp.length + wd.length

theorem matchPassiveFrAt_iff (cs : List Char) (i n : Nat) :
    matchPassiveFrAt cs i = some n ↔ FrPassiveM cs i n := by
  constructor
  · intro h
    unfold matchPassiveFrAt at h
    by_cases hb : bBefore cs i = true
    case neg => rw [if_neg hb] at h; cases h
    rw [if_pos hb] at h
    cases hfind : etreForms.find?
        (fun v => prefixCI v (cs.drop i) && bAt cs (i + v.length)) with
    | none => rw [hfind] at h; cases h
    | some v =>
      rw [hfind, Option.some_bind] at h
      cases htail : tailMatch 2 ['é'] ((cs.drop i).drop v.length) with
      | none => rw [htail] at h; cases h
      | some ab =>
        rw [htail, Option.map_some'] at h
        obtain ⟨a, b⟩ := ab
        have hn : n = v.length + a + b := by simpa using h.symm
        have hvmem : v ∈ etreForms := List.mem_of_find?_eq_some hfind
        have hpred := List.find?_some hfind
        rw [Bool.and_eq_true] at hpred
        have hpre : prefixCI v (cs.drop i) = true := hpred.1
        obtain ⟨-, hvlen⟩ := prefixCI_take hpre
        have hvt : lowerList ((cs.drop i).take v.length) = v := by
          simpa [prefixCI] using hpre
        have hvtlen : ((cs.drop i).take v.length).length = v.length := by
          rw [List.length_take]
          have := List.length_drop i cs
          omega
        obtain ⟨sp, wd, rest, hr, hspne, hsp, hwm, hwall, hsuf, hrest, ha, hbb⟩ :=
          (tailMatch_iff 2 ['é'] (by omega) _ a b).mp htail
        refine ⟨hb, v, (cs.drop i).take v.length, sp, wd, rest,
          hvmem, hvt, hspne, hsp, hwm, hwall, hsuf, hrest, ?_, ?_⟩
        · rw [← hr]
          exact (List.take_append_drop ..).symm
        · rw [hn, hvtlen, ha, hbb]
  · intro h
    obtain ⟨hb, v, vt, sp, wd, rest, hvmem, hvt, hspne, hsp, hwm, hwall,
      hsuf, hrest, hdec, hn⟩ := h
    have hlen : vt.length = v.length := by
      rw [← hvt]; simp [lowerList]
    have hpre : prefixCI v (cs.drop i) = true := by
      have htake : (cs.drop i).take v.length = vt := by
        rw [hdec, ← hlen]
        exact List.take_left ..
      simp [prefixCI, htake, hvt]
    have hspc : ∀ c, (sp ++ (wd ++ rest)).head? = some c → isWordChar c = false := by
      intro c hc
      cases sp with
      | nil => exact absurd rfl hspne
      | cons x xs =>
        simp at hc
        subst hc
        exact not_word_of_space (hsp x (List.mem_cons_self ..))
    have hbat : bAt cs (i + v.length) = true := by
      rw [← hlen]
      exact bAt_of_rest hdec hspc
    have hforms : ∀ u ∈ etreForms, ∀ w ∈ etreForms, u = w.take u.length →
        u = w ∨ isWordChar (w.getD u.length ' ') = true := by decide
    have hfind : etreForms.find?
        (fun u => prefixCI u (cs.drop i) && bAt cs (i + u.length)) = some v :=
      find?_eq_some_of_unique _ _ v hvmem
        (by rw [Bool.and_eq_true]; exact ⟨hpre, hbat⟩)
        (prefixCI_bAt_unique hforms hvmem hpre hbat)
    have hdrop : (cs.drop i).drop v.length = sp ++ (wd ++ rest) := by
      rw [hdec, ← hlen]
      exact List.drop_left ..
    have htail : tailMatch 2 ['é'] ((cs.drop i).drop v.length) =
        some (sp.length, wd.length) := by
      rw [hdrop]
      exact (tailMatch_iff 2 ['é'] (by omega) _ _ _).mpr
        ⟨sp, wd, rest, rfl, hspne, hsp, hwm, hwall, hsuf, hrest, rfl, rfl⟩
    unfold matchPassiveFrAt
    rw [if_pos hb, hfind, Option.some_bind, htail, Option.map_some', hn, hlen]

theorem matchPassiveFrAt_bound (cs : List Char) (i n : Nat)
    (h : matchPassiveFrAt cs i = some n) : 1 ≤ n ∧ i + n ≤ cs.length := by
  rw [matchPassiveFrAt_iff] at h
  obtain ⟨-, v, vt, sp, wd, rest, -, -, -, -, hwm, -, -, -, hdec, hn⟩ := h
  have h1 : (cs.drop i).length = cs.length - i := List.length_drop ..
  rw [hdec] at h1
  simp [List.length_append] at h1
  omega

/-! Hedge words: `pragmatic_prism_en` scans with
`\b(maybe|perhaps|sort of|kind of|somewhat|quite|very|really)\b` under
`re.IGNORECASE` (src/Correcto.py, lines 307-312); `apply_style_mode`
(lines 314-321) searches for `\b(can't|don't|won't|it's)\b` and
`\butilize\b`, both case-insensitive. All these are word alternations
with a trailing boundary, the shape of `altMatch`. -/

def hedgeForms : List (List Char) :=
  ["maybe", "perhaps", "sort of", "kind of", "somewhat", "quite",
   "very", "really"].map String.toList

def contractionForms : List (List Char) :=
  ["can't", "don't", "won't", "it's"].map String.toList

def utilizeForms : List (List Char) :=
  ["utilize"].map String.toList

/-! Maximal runs: `re.findall(r'\b\w+\b', s)` returns the maximal runs
of word characters of `s`, and Python's `str.split()` with no argument
returns the maximal runs of non-whitespace characters. `runsOf p`
computes the maximal runs of characters satisfying `p`. -/

def runsAux (p : Char → Bool) : List Char → List Char → List (List Char)
  | [], acc => if acc.isEmpty then [] else [acc.reverse]
  | c :: tl, acc =>
    if p c then runsAux p tl (c :: acc)
    else if acc.isEmpty then runsAux p tl []
    else acc.reverse :: runsAux p tl []

def runsOf (p : Char → Bool) (cs : List Char) : List (List Char) :=
  runsAux p cs []

/-! The style checkers of src/Correcto.py, lines 282-321, translated
from the source. Each one that the source writes as a `re.finditer`
loop appending `(message, match.group())` becomes a `map` over `scan`;
`match.group()` is the matched slice of the text. -/

/-- src/Correcto.py lines 282-288: one ("Passive voice", match) pair per
match of `\b(am|are|is|was|were|been|being)\s+\w+ed\b`, IGNORECASE. -/
def detect_passive_voice_en (text : List Char) : List (String × String) :=
  (scan matchPassiveEnAt text).map (fun pr =>
    ("Passive voice", String.mk ((text.drop pr.1).take pr.2)))

/-- src/Correcto.py lines 290-296: one ("Voix passive", match) pair per
match of `(\b(suis|es|est|sommes|êtes|sont)\b)\s+\w+[é]\b`, IGNORECASE. -/
def detect_passive_voice_fr (text : List Char) : List (String × String) :=
  (scan matchPassiveFrAt text).map (fun pr =>
    ("Voix passive", String.mk ((text.drop pr.1).take pr.2)))

/-- src/Correcto.py lines 307-312: one ("Avoid hedging for clarity",
match) pair per match of the hedge-word alternation, IGNORECASE. -/
def pragmatic_prism_en (text : List Char) : List (String × String) :=
  (scan (altMatch hedgeForms) text).map (fun pr =>
    ("Avoid hedging for clarity", String.mk ((text.drop pr.1).take pr.2)))

/-- The token list of `detect_repetitions`:
`re.findall(r'\b\w+\b', text.lower())`. -/
def wordTokensOf (text : List Char) : List (List Char) :=
  runsOf isWordChar (lowerList text)

/-- src/Correcto.py lines 298-305: tokenize `text.lower()` with
`re.findall(r'\b\w+\b', ...)`, then compare every pair of positions at
distance at most `window`, reporting words longer than 3 characters.
The Python loops `for i in range(len(words))` /
`for j in range(i+1, min(i+window+1, len(words)))` with a conditional
`append` become `flatMap` over `range` and `filterMap` over `range'`. -/
def detect_repetitions (text : List Char) (window : Nat := 10) :
    List (String × String) :=
  (List.range (wordTokensOf text).length).flatMap (fun i =>
    (List.range' (i + 1)
        (min (i + window + 1) (wordTokensOf text).length - (i + 1))).filterMap
      (fun j =>
        if (wordTokensOf text).getD i [] = (wordTokensOf text).getD j [] ∧
            3 < ((wordTokensOf text).getD i []).length then
          some ("Repetition of '" ++ String.mk ((wordTokensOf text).getD i []) ++ "'",
            String.mk ((wordTokensOf text).getD i []))
        else none))

/-- `re.search(pattern, text)` is truthy exactly when the pattern
matches at some position of the text. -/
def searchAny (f : List Char → Nat → Option Nat) (cs : List Char) : Bool :=
  (List.range (cs.length + 1)).any (fun i => (f cs i).isSome)

/-- src/Correcto.py lines 314-321: style-mode rules. Only for text
language "en-US": in academic mode one issue when the text holds a
contraction, in professional mode one issue when it holds "utilize";
the Python `if`/`elif` chain on an initially empty list is this
conditional. -/
def apply_style_mode (text : List Char) (mode lang : String) :
    List (String × String) :=
  if lang = "en-US" then
    if mode = "academic" ∧ searchAny (altMatch contractionForms) text = true then
      [("Avoid contractions in academic writing", "contraction")]
    else if mode = "professional" ∧ searchAny (altMatch utilizeForms) text = true then
      [("Prefer 'use' over 'utilize'", "utilize")]
    else []
  else []

/-! The embedded French lexicon (src/Correcto.py, lines 30-193) and the
translation tables (lines 196-279), transcribed entry for entry. A
Python dict literal with distinct keys is modelled as an association
list looked up by first match (`alookup`). The dict values of the
lexicon are records with keys "pos", "def", "ex"; "def" is a Lean
keyword, so the field is named `defn`. -/

structure FrenchEntry where
  pos : String
  defn : String
  ex : String
deriving DecidableEq

def alookup {β : Type} (k : String) : List (String × β) → Option β
  | [] => none
  | (k', v) :: tl => if k' = k then some v else alookup k tl

def FRENCH_LEXICON : List (String × FrenchEntry) := [
  ("être", FrenchEntry.mk "verbe" "avoir une existence" "Je suis heureux."),
  ("avoir", FrenchEntry.mk "verbe" "posséder" "J'ai un livre."),
  ("faire", FrenchEntry.mk "verbe" "accomplir une action" "Fais attention !"),
  ("dire", FrenchEntry.mk "verbe" "exprimer par la parole" "Il dit la vérité."),
  ("aller", FrenchEntry.mk "verbe" "se déplacer" "Je vais à l'école."),
  ("voir", FrenchEntry.mk "verbe" "percevoir avec les yeux" "Je vois un chat."),
  ("prendre", FrenchEntry.mk "verbe" "saisir" "Prends ton sac."),
  ("pouvoir", FrenchEntry.mk "verbe" "avoir la capacité" "Je peux aider."),
  ("devoir", FrenchEntry.mk "verbe" "être obligé" "Je dois partir."),
  ("vouloir", FrenchEntry.mk "verbe" "avoir envie" "Je veux réussir."),
  ("savoir", FrenchEntry.mk "verbe" "connaître une information" "Je sais la réponse."),
  ("connaître", FrenchEntry.mk "verbe" "avoir de l'expérience" "Je connais Paris."),
  ("mettre", FrenchEntry.mk "verbe" "placer" "Mets le livre sur la table."),
  ("donner", FrenchEntry.mk "verbe" "offrir" "Il donne un cadeau."),
  ("trouver", FrenchEntry.mk "verbe" "localiser" "J'ai trouvé les clés."),
  ("demander", FrenchEntry.mk "verbe" "poser une question" "Je demande de l'aide."),
  ("parler", FrenchEntry.mk "verbe" "s'exprimer oralement" "Je parle français."),
  ("comprendre", FrenchEntry.mk "verbe" "saisir le sens" "Je comprends la leçon."),
  ("apprendre", FrenchEntry.mk "verbe" "acquérir des connaissances" "J'apprends le français."),
  ("travailler", FrenchEntry.mk "verbe" "exercer une activité professionnelle" "Je travaille dans un bureau."),
  ("habiter", FrenchEntry.mk "verbe" "vivre dans un lieu" "J'habite à Paris."),
  ("aimer", FrenchEntry.mk "verbe" "avoir de l'affection" "J'aime la musique."),
  ("penser", FrenchEntry.mk "verbe" "avoir une opinion" "Je pense que c'est vrai."),
  ("sentir", FrenchEntry.mk "verbe" "percevoir une odeur ou une émotion" "Je sens une fleur."),
  ("rester", FrenchEntry.mk "verbe" "demeurer" "Reste ici !"),
  ("tenir", FrenchEntry.mk "verbe" "maintenir en place" "Tiens ce sac."),
  ("venir", FrenchEntry.mk "verbe" "se déplacer vers ici" "Viens avec moi."),
  ("arriver", FrenchEntry.mk "verbe" "atteindre un lieu" "Il arrive bientôt."),
  ("partir", FrenchEntry.mk "verbe" "quitter un lieu" "Je pars maintenant."),
  ("rentrer", FrenchEntry.mk "verbe" "retourner chez soi" "Je rentre à la maison."),
  ("sortir", FrenchEntry.mk "verbe" "aller dehors" "Nous sortons ce soir."),
  ("entrer", FrenchEntry.mk "verbe" "aller à l'intérieur" "Entrez, s'il vous plaît."),
  ("monter", FrenchEntry.mk "verbe" "aller vers le haut" "Monte l'escalier."),
  ("descendre", FrenchEntry.mk "verbe" "aller vers le bas" "Descends de là !"),
  ("passer", FrenchEntry.mk "verbe" "aller d'un côté à l'autre" "Passe-moi le sel."),
  ("finir", FrenchEntry.mk "verbe" "terminer" "Finis ton devoir."),
  ("commencer", FrenchEntry.mk "verbe" "initier une action" "Commence maintenant."),
  ("continuer", FrenchEntry.mk "verbe" "ne pas s'arrêter" "Continue à marcher."),
  ("changer", FrenchEntry.mk "verbe" "devenir différent" "Tout peut changer."),
  ("essayer", FrenchEntry.mk "verbe" "faire une tentative" "Essaye encore."),
  ("réussir", FrenchEntry.mk "verbe" "atteindre le succès" "Il réussit son examen."),
  ("échouer", FrenchEntry.mk "verbe" "ne pas réussir" "Ne pas échouer."),
  ("gagner", FrenchEntry.mk "verbe" "obtenir une victoire" "Nous gagnons le match."),
  ("perdre", FrenchEntry.mk "verbe" "ne plus avoir" "J'ai perdu mes clés."),
  ("ouvrir", FrenchEntry.mk "verbe" "rendre accessible" "Ouvre la porte."),
  ("fermer", FrenchEntry.mk "verbe" "rendre inaccessible" "Ferme la fenêtre."),
  ("lire", FrenchEntry.mk "verbe" "déchiffrer du texte" "Je lis un roman."),
  ("écrire", FrenchEntry.mk "verbe" "tracer des signes" "J'écris une lettre."),
  ("écouter", FrenchEntry.mk "verbe" "prêter attention" "Écoute la musique."),
  ("regarder", FrenchEntry.mk "verbe" "observer avec les yeux" "Regarde ce film."),
  ("manger", FrenchEntry.mk "verbe" "consommer de la nourriture" "Je mange une pomme."),
  ("boire", FrenchEntry.mk "verbe" "consommer un liquide" "Bois de l'eau."),
  ("dormir", FrenchEntry.mk "verbe" "reposer son corps" "Je dors huit heures."),
  ("vivre", FrenchEntry.mk "verbe" "être en vie" "Je vis en France."),
  ("mourir", FrenchEntry.mk "verbe" "cesser de vivre" "Les feuilles meurent en hiver."),
  ("homme", FrenchEntry.mk "nom" "être humain masculin" "Cet homme est gentil."),
  ("femme", FrenchEntry.mk "nom" "être humain féminin" "Cette femme est intelligente."),
  ("enfant", FrenchEntry.mk "nom" "jeune être humain" "L'enfant joue."),
  ("ami", FrenchEntry.mk "nom" "personne chère" "Mon ami m'aide."),
  ("maison", FrenchEntry.mk "nom" "bâtiment d'habitation" "La maison est grande."),
  ("voiture", FrenchEntry.mk "nom" "véhicule à moteur" "La voiture est rouge."),
  ("ville", FrenchEntry.mk "nom" "grand ensemble urbain" "Paris est une grande ville."),
  ("pays", FrenchEntry.mk "nom" "nation" "La France est un beau pays."),
  ("monde", FrenchEntry.mk "nom" "planète Terre" "Le monde est vaste."),
  ("jour", FrenchEntry.mk "nom" "période de lumière" "Bon jour !"),
  ("nuit", FrenchEntry.mk "nom" "période d'obscurité" "La nuit est calme."),
  ("temps", FrenchEntry.mk "nom" "durée ou météo" "Il fait beau temps."),
  ("année", FrenchEntry.mk "nom" "période de 365 jours" "Cette année est spéciale."),
  ("mois", FrenchEntry.mk "nom" "période d'environ 30 jours" "Janvier est un mois froid."),
  ("semaine", FrenchEntry.mk "nom" "période de 7 jours" "Une semaine de vacances."),
  ("heure", FrenchEntry.mk "nom" "période de 60 minutes" "Il est trois heures."),
  ("minute", FrenchEntry.mk "nom" "période de 60 secondes" "Attends une minute."),
  ("seconde", FrenchEntry.mk "nom" "unité de temps" "Une seconde suffit."),
  ("eau", FrenchEntry.mk "nom" "liquide transparent" "Je bois de l'eau."),
  ("feu", FrenchEntry.mk "nom" "combustion" "Le feu brûle."),
  ("air", FrenchEntry.mk "nom" "mélange gazeux" "L'air est pur."),
  ("terre", FrenchEntry.mk "nom" "sol ou planète" "La Terre est bleue."),
  ("ciel", FrenchEntry.mk "nom" "espace au-dessus de la terre" "Le ciel est bleu."),
  ("mer", FrenchEntry.mk "nom" "grande étendue d'eau salée" "La mer est calme."),
  ("fleur", FrenchEntry.mk "nom" "organe reproducteur des plantes" "Cette fleur est belle."),
  ("arbre", FrenchEntry.mk "nom" "plante ligneuse" "L'arbre donne de l'ombre."),
  ("chat", FrenchEntry.mk "nom" "animal domestique" "Le chat dort."),
  ("chien", FrenchEntry.mk "nom" "animal domestique fidèle" "Le chien aboie."),
  ("oiseau", FrenchEntry.mk "nom" "animal volant" "L'oiseau chante."),
  ("poisson", FrenchEntry.mk "nom" "animal aquatique" "Le poisson nage."),
  ("livre", FrenchEntry.mk "nom" "ouvrage imprimé" "Je lis un livre."),
  ("lettre", FrenchEntry.mk "nom" "caractère ou message écrit" "Écris une lettre."),
  ("mot", FrenchEntry.mk "nom" "unité de langage" "Ce mot est difficile."),
  ("phrase", FrenchEntry.mk "nom" "groupe de mots" "Cette phrase est longue."),
  ("langue", FrenchEntry.mk "nom" "système de communication" "Le français est ma langue."),
  ("voix", FrenchEntry.mk "nom" "son produit par la parole" "Sa voix est douce."),
  ("main", FrenchEntry.mk "nom" "partie du corps" "Donne-moi la main."),
  ("pied", FrenchEntry.mk "nom" "extrémité de la jambe" "J'ai mal au pied."),
  ("tête", FrenchEntry.mk "nom" "partie supérieure du corps" "Ma tête tourne."),
  ("cœur", FrenchEntry.mk "nom" "organe ou symbole d'amour" "Mon cœur bat vite."),
  ("bouche", FrenchEntry.mk "nom" "organe de la parole et de la nourriture" "Ferme la bouche."),
  ("yeux", FrenchEntry.mk "nom" "organes de la vue" "Mes yeux sont fatigués."),
  ("nez", FrenchEntry.mk "nom" "organe de l'odorat" "Mon nez coule."),
  ("oreilles", FrenchEntry.mk "nom" "organes de l'ouïe" "Mes oreilles sifflent."),
  ("peau", FrenchEntry.mk "nom" "enveloppe du corps" "Ma peau est sèche."),
  ("cheveux", FrenchEntry.mk "nom" "filaments sur la tête" "Mes cheveux sont longs."),
  ("grand", FrenchEntry.mk "adjectif" "de grande taille" "Un grand arbre."),
  ("petit", FrenchEntry.mk "adjectif" "de petite taille" "Un petit chien."),
  ("beau", FrenchEntry.mk "adjectif" "agréable à voir" "Une belle fleur."),
  ("bon", FrenchEntry.mk "adjectif" "de bonne qualité" "Un bon repas."),
  ("mauvais", FrenchEntry.mk "adjectif" "de mauvaise qualité" "Un mauvais film."),
  ("vieux", FrenchEntry.mk "adjectif" "ancien" "Un vieux livre."),
  ("nouveau", FrenchEntry.mk "adjectif" "récent" "Une nouvelle voiture."),
  ("jeune", FrenchEntry.mk "adjectif" "pas vieux" "Un jeune homme."),
  ("fort", FrenchEntry.mk "adjectif" "ayant de la force" "Il est très fort."),
  ("faible", FrenchEntry.mk "adjectif" "manquant de force" "Je me sens faible."),
  ("rapide", FrenchEntry.mk "adjectif" "allant vite" "Une voiture rapide."),
  ("lent", FrenchEntry.mk "adjectif" "allant lentement" "Un escargot est lent."),
  ("chaud", FrenchEntry.mk "adjectif" "ayant une température élevée" "L'eau est chaude."),
  ("froid", FrenchEntry.mk "adjectif" "ayant une température basse" "L'hiver est froid."),
  ("clair", FrenchEntry.mk "adjectif" "bien éclairé" "Le ciel est clair."),
  ("sombre", FrenchEntry.mk "adjectif" "mal éclairé" "La pièce est sombre."),
  ("plein", FrenchEntry.mk "adjectif" "rempli" "Le verre est plein."),
  ("vide", FrenchEntry.mk "adjectif" "pas rempli" "La bouteille est vide."),
  ("propre", FrenchEntry.mk "adjectif" "sans saleté" "Les vêtements sont propres."),
  ("sale", FrenchEntry.mk "adjectif" "avec de la saleté" "Les chaussures sont sales."),
  ("facile", FrenchEntry.mk "adjectif" "sans difficulté" "C'est une question facile."),
  ("difficile", FrenchEntry.mk "adjectif" "avec difficulté" "C'est un exercice difficile."),
  ("important", FrenchEntry.mk "adjectif" "ayant de l'importance" "C'est très important."),
  ("utile", FrenchEntry.mk "adjectif" "qui sert à quelque chose" "Ce conseil est utile."),
  ("inutile", FrenchEntry.mk "adjectif" "qui ne sert à rien" "C'est une remarque inutile."),
  ("possible", FrenchEntry.mk "adjectif" "qui peut exister" "Tout est possible."),
  ("impossible", FrenchEntry.mk "adjectif" "qui ne peut pas exister" "C'est impossible !"),
  ("vrai", FrenchEntry.mk "adjectif" "conforme à la réalité" "C'est la vérité."),
  ("faux", FrenchEntry.mk "adjectif" "non conforme à la réalité" "C'est un faux document."),
  ("libre", FrenchEntry.mk "adjectif" "non prisonnier" "Je suis libre."),
  ("occupé", FrenchEntry.mk "adjectif" "non disponible" "Je suis occupé."),
  ("content", FrenchEntry.mk "adjectif" "heureux" "Je suis content."),
  ("triste", FrenchEntry.mk "adjectif" "malheureux" "Il est triste."),
  ("heureux", FrenchEntry.mk "adjectif" "joyeux" "Elle est heureuse."),
  ("malheureux", FrenchEntry.mk "adjectif" "pas heureux" "Il est malheureux."),
  ("calme", FrenchEntry.mk "adjectif" "paisible" "Sois calme."),
  ("agité", FrenchEntry.mk "adjectif" "pas calme" "L'enfant est agité."),
  ("gentil", FrenchEntry.mk "adjectif" "aimable" "Il est gentil."),
  ("méchant", FrenchEntry.mk "adjectif" "cruel" "Il est méchant."),
  ("intelligent", FrenchEntry.mk "adjectif" "ayant de l'intelligence" "Elle est intelligente."),
  ("bête", FrenchEntry.mk "adjectif" "pas intelligent" "C'est une bête question."),
  ("riche", FrenchEntry.mk "adjectif" "ayant beaucoup d'argent" "Il est riche."),
  ("pauvre", FrenchEntry.mk "adjectif" "n'ayant pas d'argent" "Le pays est pauvre."),
  ("cher", FrenchEntry.mk "adjectif" "coûteux" "Cette montre est chère."),
  ("bon marché", FrenchEntry.mk "adjectif" "peu coûteux" "C'est bon marché."),
  ("proche", FrenchEntry.mk "adjectif" "pas loin" "La gare est proche."),
  ("loin", FrenchEntry.mk "adjectif" "à grande distance" "L'école est loin."),
  ("haut", FrenchEntry.mk "adjectif" "de grande altitude" "La montagne est haute."),
  ("bas", FrenchEntry.mk "adjectif" "de faible altitude" "Le ciel est bas."),
  ("long", FrenchEntry.mk "adjectif" "de grande longueur" "Une longue route."),
  ("court", FrenchEntry.mk "adjectif" "de faible longueur" "Une courte réponse."),
  ("large", FrenchEntry.mk "adjectif" "de grande largeur" "Une large rue."),
  ("étroit", FrenchEntry.mk "adjectif" "de faible largeur" "Un étroit passage."),
  ("épais", FrenchEntry.mk "adjectif" "de grande épaisseur" "Un épais livre."),
  ("mince", FrenchEntry.mk "adjectif" "de faible épaisseur" "Une mince feuille."),
  ("lourd", FrenchEntry.mk "adjectif" "de grand poids" "Ce sac est lourd."),
  ("léger", FrenchEntry.mk "adjectif" "de faible poids" "Une plume est légère."),
  ("dur", FrenchEntry.mk "adjectif" "solide" "Le bois est dur."),
  ("mou", FrenchEntry.mk "adjectif" "pas solide" "Le pain est mou."),
  ("doux", FrenchEntry.mk "adjectif" "agréable au toucher" "Le tissu est doux."),
  ("rude", FrenchEntry.mk "adjectif" "désagréable au toucher" "Le tissu est rude.")]

def TRANSLATIONS_en : List (String × String) := [
  ("app_title", "Correcto — Professional Writing Assistant"),
  ("lang_label_ui", "UI Language:"),
  ("lang_label_text", "Text Language:"),
  ("switch_text_lang", "Switch Text Language"),
  ("style_mode", "Writing Mode:"),
  ("analyze", "Analyze Text"),
  ("stats", "Show Statistics"),
  ("export", "Export Report"),
  ("corrections", "Corrections"),
  ("dictionary", "Dictionary"),
  ("conjugation", "Conjugation"),
  ("document", "Document:"),
  ("empty_doc", "📝 Empty document."),
  ("analyzing", "🔍 Analyzing..."),
  ("no_issues", "✅ No issues detected."),
  ("grammar", "Grammar"),
  ("style", "Style"),
  ("context", "Context"),
  ("suggestions", "Suggestions"),
  ("def", "Definition"),
  ("example", "Example"),
  ("error", "Error"),
  ("stats_title", "Document Statistics"),
  ("words", "Words"),
  ("sentences", "Sentences"),
  ("flesch", "Flesch Reading Ease"),
  ("passive", "Passive Voice"),
  ("repetition", "Repetitions"),
  ("long_sent", "Long Sentences"),
  ("style_checks", "Style Checks:"),
  ("conj_verb", "Conjugate verb"),
  ("lookup_word", "Look up word"),
  ("install_nltk", "⚠️ Install NLTK for English dictionary"),
  ("not_found", "Not found"),
  ("install_deps", "Install dependencies:\npip install --user {}"),
  ("academic", "Academic"),
  ("professional", "Professional"),
  ("neutral", "Neutral"),
  ("about", "About Correcto")]
def TRANSLATIONS_fr : List (String × String) := [
  ("app_title", "Correcto — Assistant de rédaction professionnel"),
  ("lang_label_ui", "Langue de l'interface :"),
  ("lang_label_text", "Langue du texte :"),
  ("switch_text_lang", "Changer la langue du texte"),
  ("style_mode", "Mode de rédaction :"),
  ("analyze", "Analyser le texte"),
  ("stats", "Afficher les statistiques"),
  ("export", "Exporter le rapport"),
  ("corrections", "Corrections"),
  ("dictionary", "Dictionnaire"),
  ("conjugation", "Conjugaison"),
  ("document", "Document :"),
  ("empty_doc", "📝 Document vide."),
  ("analyzing", "🔍 Analyse en cours..."),
  ("no_issues", "✅ Aucun problème détecté."),
  ("grammar", "Grammaire"),
  ("style", "Style"),
  ("context", "Contexte"),
  ("suggestions", "Suggestions"),
  ("def", "Définition"),
  ("example", "Exemple"),
  ("error", "Erreur"),
  ("stats_title", "Statistiques du document"),
  ("words", "Mots"),
  ("sentences", "Phrases"),
  ("flesch", "Lisibilité Flesch"),
  ("passive", "Voix passive"),
  ("repetition", "Répétitions"),
  ("long_sent", "Phrases longues"),
  ("style_checks", "Vérifications de style :"),
  ("conj_verb", "Conjuguer un verbe"),
  ("lookup_word", "Rechercher un mot"),
  ("install_nltk", "⚠️ Installez NLTK pour le dictionnaire anglais"),
  ("not_found", "Non trouvé"),
  ("install_deps", "Installez les dépendances :\npip install --user {}"),
  ("academic", "Universitaire"),
  ("professional", "Professionnel"),
  ("neutral", "Neutre"),
  ("about", "À propos de Correcto")]
/-- src/Correcto.py lines 196-279: the translation table maps exactly
the two language codes to their key-value tables. -/
def TRANSLATIONS : List (String × List (String × String)) :=
  [("en", TRANSLATIONS_en), ("fr", TRANSLATIONS_fr)]

/-- Every key the application reads from its active translation table
`self.tr[k]`, collected from src/Correcto.py (init_ui, update_ui,
display_results, run_analysis, show_stats, export_report, show_about,
conjugate_verb). -/
def keysReadByApp : List String :=
  ["app_title", "lang_label_ui", "lang_label_text", "switch_text_lang",
   "style_mode", "analyze", "stats", "export", "corrections", "dictionary",
   "conjugation", "document", "empty_doc", "analyzing", "no_issues",
   "grammar", "style", "context", "suggestions", "error", "stats_title",
   "words", "sentences", "flesch", "passive", "repetition", "long_sent",
   "style_checks", "conj_verb", "lookup_word", "install_deps", "academic",
   "professional", "neutral", "about", "export_html"]

/-- Python `str.lower` (on the modelled character fragment). -/
def pyLower (s : String) : String := String.mk (lowerList s.toList)

/-- src/Correcto.py lines 351-357: lookup in the embedded French
lexicon. The source lowercases the word, reads the dict with `.get`,
and builds a fresh result dict; absent words give the fixed
not-found entry. -/
def lookup_french (word : String) : FrenchEntry :=
  match alookup (pyLower word) FRENCH_LEXICON with
  | some entry => ⟨entry.pos, entry.defn, entry.ex⟩
  | none => ⟨"", "Mot non trouvé dans le dictionnaire français.", ""⟩

/-! Configuration (src/Correcto.py, lines 359-388). The JSON values the
defaults use are strings and booleans. -/

inductive CVal where
  | s (v : String)
  | b (v : Bool)
deriving DecidableEq

/-- The `default` dict of `get_config` (lines 365-372). -/
def defaultConfig : List (String × CVal) :=
  [("ui_language", CVal.s "en"),
   ("text_language", CVal.s "en-US"),
   ("style_mode", CVal.s "neutral"),
   ("check_passive", CVal.b true),
   ("check_repetition", CVal.b true),
   ("check_long_sent", CVal.b true)]

/-- The observable states of the config file: missing, present but not
parseable as JSON (`json.loads` raises), or parsed to a key-value
mapping. -/
inductive ConfigFile where
  | absent
  | unparsable
  | parsed (saved : List (String × CVal))

/-- src/Correcto.py lines 364-382: when the file exists and parses,
each default key missing from the saved mapping is appended with its
default value (Python dict insertion order) and the saved mapping is
returned; otherwise the defaults are returned (the `except` swallows
the parse error and falls through to `return default`). -/
def get_config : ConfigFile → List (String × CVal)
  | ConfigFile.parsed saved =>
    defaultConfig.foldl
      (fun acc kv => if alookup kv.1 acc = none then acc ++ [kv] else acc) saved
  | _ => defaultConfig

/-! The analyzer thread (src/Correcto.py, lines 391-444). Its
interaction with the outside world is abstracted into whether
`import language_tool_python` succeeds and what the grammar check
returns (the list of issues already built from the tool's matches, or
the raised exception's message); everything else in `run` is the pure
computation below, and `result_ready.emit` is recorded as appending to
the list of emitted results. -/

structure GrammarIssue where
  message : String
  context : String
  suggestions : List String
deriving DecidableEq

structure AnalyzerConfig where
  check_passive : Bool
  check_repetition : Bool
  style_mode : String
deriving DecidableEq

inductive RunEmit where
  | err (s : String)
  | ok (grammar : List GrammarIssue) (style : List (String × String))
deriving DecidableEq

/-- src/Correcto.py lines 400-444: the emissions of one `run`. -/
def analyzerRun (importOk : Bool) (checkResult : Except String (List GrammarIssue))
    (text : List Char) (lang : String) (cfg : AnalyzerConfig) : List RunEmit :=
  if importOk = false then [RunEmit.err "language-tool-python"]
  else
    match checkResult with
    | Except.error e => [RunEmit.err e]
    | Except.ok gs =>
      [RunEmit.ok gs
        ((if cfg.check_passive then
            (if lang = "en-US" then detect_passive_voice_en text
             else if lang = "fr" then detect_passive_voice_fr text else [])
          else [])
         ++ (if cfg.check_repetition then detect_repetitions text 10 else [])
         ++ (if lang = "en-US" then pragmatic_prism_en text else [])
         ++ apply_style_mode text cfg.style_mode lang)]

/-! Statistics (src/Correcto.py): `show_stats` lines 659-660 and
`export_report` lines 683-685 compute word, sentence and passive-voice
counts. `text.split()` with no argument counts the maximal runs of
non-whitespace characters; `re.split(r'[.!?]+', text)` returns one
piece more than the number of non-overlapping matches of `[.!?]+`,
which are the maximal runs of sentence punctuation. -/

def isSentSep (c : Char) : Bool := c = '.' || c = '!' || c = '?'

/-- Matcher of `[.!?]+` at a position: the maximal punctuation run
starting there, when non-empty. -/
def matchSentSepAt (cs : List Char) (i : Nat) : Option Nat :=
  if 1 ≤ ((cs.drop i).takeWhile isSentSep).length then
    some ((cs.drop i).takeWhile isSentSep).length
  else none

/-- Number of pieces of `re.split(r'[.!?]+', text)`: one more than the
number of separator matches. -/
def reSplitPieces (text : List Char) : Nat :=
  (scan matchSentSepAt text).length + 1

/-- src/Correcto.py line 659: `words = len(text.split())`. -/
def statsWords (text : List Char) : Nat :=
  (runsOf (fun c => !isSpaceChar c) text).length

/-- src/Correcto.py line 660:
`sentences = max(0, len(re.split(r'[.!?]+', text)) - 1)`. -/
def statsSentences (text : List Char) : Nat :=
  max 0 (reSplitPieces text - 1)

/-- src/Correcto.py line 683: `words = len(text.split())`. -/
def exportWords (text : List Char) : Nat :=
  (runsOf (fun c => !isSpaceChar c) text).length

/-- src/Correcto.py line 684:
`sentences = max(0, len(re.split(r'[.!?]+', text)) - 1)`. -/
def exportSentences (text : List Char) : Nat :=
  max 0 (reSplitPieces text - 1)

/-- src/Correcto.py line 685: `passive_count = len(re.findall(
r'\b(am|are|is|was|were|been|being)\s+\w+ed\b', text, re.IGNORECASE))`;
`findall` yields one element per non-overlapping match. -/
def exportPassiveCount (text : List Char) : Nat :=
  (scan matchPassiveEnAt text).length

/-! Support lemmas for the claims. -/

theorem matchFun_of_iff {M : Nat → Nat → Prop} {f : List Char → Nat → Option Nat}
    {cs : List Char} (hiff : ∀ i n, M i n ↔ f cs i = some n) :
    ∀ i n n', M i n → M i n' → n = n' := by
  intro i n n' h h'
  have h1 := (hiff i n).mp h
  have h2 := (hiff i n').mp h'
  rw [h1] at h2
  exact Option.some.inj h2

theorem searchAny_iff {f : List Char → Nat → Option Nat} {M : Nat → Nat → Prop}
    {cs : List Char} (hiff : ∀ i n, M i n ↔ f cs i = some n)
    (hbound : ∀ i n, f cs i = some n → 1 ≤ n ∧ i + n ≤ cs.length) :
    searchAny f cs = true ↔ ∃ i n, M i n := by
  unfold searchAny
  rw [List.any_eq_true]
  constructor
  · rintro ⟨i, hi, hsome⟩
    rw [Option.isSome_iff_exists] at hsome
    obtain ⟨n, hn⟩ := hsome
    exact ⟨i, n, (hiff i n).mpr hn⟩
  · rintro ⟨i, n, hM⟩
    have hf := (hiff i n).mp hM
    have hb := hbound i n hf
    refine ⟨i, ?_, ?_⟩
    · rw [List.mem_range]; omega
    · rw [hf]; rfl

theorem pairwise_lt_ext : ∀ (l₁ l₂ : List Nat), l₁.Pairwise (· < ·) →
    l₂.Pairwise (· < ·) → (∀ x, x ∈ l₁ ↔ x ∈ l₂) → l₁ = l₂ := by
  intro l₁
  induction l₁ with
  | nil =>
    intro l₂ _ _ hmem
    cases l₂ with
    | nil => rfl
    | cons b t =>
      have : b ∈ ([] : List Nat) := (hmem b).mpr (List.mem_cons_self ..)
      simp at this
  | cons a s ih =>
    intro l₂ h₁ h₂ hmem
    cases l₂ with
    | nil =>
      have : a ∈ ([] : List Nat) := (hmem a).mp (List.mem_cons_self ..)
      simp at this
    | cons b t =>
      have hab : a = b := by
        rcases List.mem_cons.mp ((hmem a).mp (List.mem_cons_self ..)) with h | h
        · exact h
        · rcases List.mem_cons.mp ((hmem b).mpr (List.mem_cons_self ..)) with h' | h'
          · exact h'.symm
          · have hba : b < a := (List.pairwise_cons.mp h₂).1 a h
            have hab : a < b := (List.pairwise_cons.mp h₁).1 b h'
            omega
      subst hab
      have hs := (List.pairwise_cons.mp h₁)
      have ht := (List.pairwise_cons.mp h₂)
      have htails : ∀ x, x ∈ s ↔ x ∈ t := by
        intro x
        constructor
        · intro hx
          have hax : a < x := hs.1 x hx
          rcases List.mem_cons.mp ((hmem x).mp (List.mem_cons_of_mem _ hx)) with h | h
          · omega
          · exact h
        · intro hx
          have hax : a < x := ht.1 x hx
          rcases List.mem_cons.mp ((hmem x).mpr (List.mem_cons_of_mem _ hx)) with h | h
          · omega
          · exact h
      exact congrArg _ (ih t hs.2 ht.2 htails)

/-- The inner Python loop bounds: `range(i+1, min(i+window+1, n))` is the
sublist of `range(n)` with `i < j ≤ i + window`. -/
theorem range'_window (i w n : Nat) :
    List.range' (i + 1) (min (i + w + 1) n - (i + 1)) =
      (List.range n).filter (fun j => decide (i < j ∧ j ≤ i + w)) := by
  apply pairwise_lt_ext
  · exact List.pairwise_lt_range' ..
  · exact List.Pairwise.filter _ (List.pairwise_lt_range n)
  · intro x
    rw [List.mem_range'_1, List.mem_filter, List.mem_range, decide_eq_true_eq]
    omega

theorem alookup_append {β : Type} (k : String) (l₁ l₂ : List (String × β)) :
    alookup k (l₁ ++ l₂) =
      match alookup k l₁ with
      | some v => some v
      | none => alookup k l₂ := by
  induction l₁ with
  | nil => simp [alookup]
  | cons kv tl ih =>
    obtain ⟨k', v⟩ := kv
    by_cases h : k' = k <;> simp [alookup, h, ih]

theorem alookup_isSome_of_mem {β : Type} (k : String) (l : List (String × β))
    (h : k ∈ l.map Prod.fst) : (alookup k l).isSome = true := by
  induction l with
  | nil => simp at h
  | cons kv tl ih =>
    by_cases hk : kv.1 = k
    · simp [alookup, hk]
    · have hmem : k ∈ tl.map Prod.fst := by
        rw [List.map_cons] at h
        rcases List.mem_cons.mp h with h' | h'
        · exact absurd h'.symm hk
        · exact h'
      simp [alookup, hk, ih hmem]

theorem alookup_fold (k : String) (ps : List (String × CVal)) :
    ∀ saved, alookup k (ps.foldl (fun acc kv =>
        if alookup kv.1 acc = none then acc ++ [kv] else acc) saved) =
      match alookup k saved with
      | some v => some v
      | none => alookup k ps := by
  induction ps with
  | nil =>
    intro saved
    cases h : alookup k saved <;> simp [alookup, h]
  | cons kv tl ih =>
    intro saved
    rw [List.foldl_cons, ih]
    by_cases hk1 : alookup kv.1 saved = none
    · rw [if_pos hk1, alookup_append]
      cases hs : alookup k saved with
      | some v => simp [hs]
      | none =>
        by_cases hkk : kv.1 = k
        · simp [alookup, hs, hkk]
        · simp [alookup, hs, hkk]
    · rw [if_neg hk1]
      cases hs : alookup k saved with
      | some v => simp [hs]
      | none =>
        have hkk : kv.1 ≠ k := by
          intro he
          rw [he, hs] at hk1
          exact hk1 rfl
        simp [alookup, hs, hkk]

theorem lowerList_idem (l : List Char) : lowerList (lowerList l) = lowerList l := by
  unfold lowerList
  rw [List.map_map]
  exact List.map_congr_left (fun c _ => lowerChar_idem c)

theorem pyLower_idem (w : String) : pyLower (pyLower w) = pyLower w := by
  unfold pyLower
  rw [show (String.mk (lowerList w.toList)).toList = lowerList w.toList from rfl]
  rw [lowerList_idem]

/-! The claims. -/

/-- C4: for every text, `detect_passive_voice_en` returns one
("Passive voice", matched-text) pair per non-overlapping case-insensitive
match of a form of be (am, are, is, was, were, been, being) followed by
whitespace and a word ending in `ed`, in left-to-right order, and
`detect_passive_voice_fr` one ("Voix passive", matched-text) pair per
match of a present-tense form of être (suis, es, est, sommes, êtes,
sont) followed by whitespace and a word ending in `é`: each output is
the image of the unique non-overlapping left-to-right match list of the
declarative match relation of its pattern. -/
theorem C4_passive_voice_scans (text : List Char) :
    ∃ msE msF : List (Nat × Nat),
      MatchList (EnPassiveM text) 0 msE ∧
      (∀ ms', MatchList (EnPassiveM text) 0 ms' → ms' = msE) ∧
      detect_passive_voice_en text =
        msE.map (fun pr => ("Passive voice", String.mk ((text.drop pr.1).take pr.2))) ∧
      MatchList (FrPassiveM text) 0 msF ∧
      (∀ ms', MatchList (FrPassiveM text) 0 ms' → ms' = msF) ∧
      detect_passive_voice_fr text =
        msF.map (fun pr => ("Voix passive", String.mk ((text.drop pr.1).take pr.2))) := by
  have hiffE : ∀ i n, EnPassiveM text i n ↔ matchPassiveEnAt text i = some n :=
    fun i n => (matchPassiveEnAt_iff text i n).symm
  have hiffF : ∀ i n, FrPassiveM text i n ↔ matchPassiveFrAt text i = some n :=
    fun i n => (matchPassiveFrAt_iff text i n).symm
  exact ⟨scan matchPassiveEnAt text, scan matchPassiveFrAt text,
    scan_matchList hiffE (matchPassiveEnAt_bound text),
    fun ms' h => MatchList.unique (matchFun_of_iff hiffE) h
      (scan_matchList hiffE (matchPassiveEnAt_bound text)),
    rfl,
    scan_matchList hiffF (matchPassiveFrAt_bound text),
    fun ms' h => MatchList.unique (matchFun_of_iff hiffF) h
      (scan_matchList hiffF (matchPassiveFrAt_bound text)),
    rfl⟩

/-- C8: for every text, `pragmatic_prism_en` returns one
("Avoid hedging for clarity", matched-text) pair per case-insensitive
word-bounded occurrence of maybe, perhaps, sort of, kind of, somewhat,
quite, very or really, in left-to-right match order, and the empty list
when the text contains none of these. -/
theorem C8_pragmatic_prism (text : List Char) :
    ∃ ms : List (Nat × Nat),
      MatchList (AltM hedgeForms text) 0 ms ∧
      (∀ ms', MatchList (AltM hedgeForms text) 0 ms' → ms' = ms) ∧
      pragmatic_prism_en text =
        ms.map (fun pr =>
          ("Avoid hedging for clarity", String.mk ((text.drop pr.1).take pr.2))) ∧
      ((∀ i n, ¬ AltM hedgeForms text i n) → pragmatic_prism_en text = []) := by
  have hforms : ∀ u ∈ hedgeForms, ∀ w ∈ hedgeForms, u = w.take u.length →
      u = w ∨ isWordChar (w.getD u.length ' ') = true := by decide
  have hne : ∀ v ∈ hedgeForms, v ≠ [] := by decide
  have hiff : ∀ i n, AltM hedgeForms text i n ↔ altMatch hedgeForms text i = some n :=
    fun i n => (altMatch_iff hedgeForms hforms text i n).symm
  refine ⟨scan (altMatch hedgeForms) text,
    scan_matchList hiff (altMatch_bound hedgeForms hne text),
    fun ms' h => MatchList.unique (matchFun_of_iff hiff) h
      (scan_matchList hiff (altMatch_bound hedgeForms hne text)),
    rfl, ?_⟩
  intro hno
  have h0 : MatchList (AltM hedgeForms text) 0 [] :=
    MatchList.nil 0 (fun j n _ => hno j n)
  have hempty := MatchList.unique (matchFun_of_iff hiff)
    (scan_matchList hiff (altMatch_bound hedgeForms hne text)) h0
  unfold pragmatic_prism_en
  rw [hempty]
  rfl

/-- C5: `apply_style_mode` returns the empty list whenever the language
is not "en-US"; for "en-US" it returns exactly one contraction issue
precisely in academic mode with a word-bounded case-insensitive
occurrence of can't, don't, won't or it's, exactly one utilize issue
precisely in professional mode with a word-bounded occurrence of
utilize, and the empty list in neutral mode. -/
theorem C5_apply_style_mode (text : List Char) (mode lang : String) :
    (lang ≠ "en-US" → apply_style_mode text mode lang = []) ∧
    (mode = "neutral" → apply_style_mode text mode lang = []) ∧
    (apply_style_mode text mode lang =
        [("Avoid contractions in academic writing", "contraction")] ↔
      lang = "en-US" ∧ mode = "academic" ∧ ∃ i n, AltM contractionForms text i n) ∧
    (apply_style_mode text mode lang = [("Prefer 'use' over 'utilize'", "utilize")] ↔
      lang = "en-US" ∧ mode = "professional" ∧ ∃ i n, AltM utilizeForms text i n) := by
  have hformsC : ∀ u ∈ contractionForms, ∀ w ∈ contractionForms,
      u = w.take u.length → u = w ∨ isWordChar (w.getD u.length ' ') = true := by decide
  have hneC : ∀ v ∈ contractionForms, v ≠ [] := by decide
  have hformsU : ∀ u ∈ utilizeForms, ∀ w ∈ utilizeForms,
      u = w.take u.length → u = w ∨ isWordChar (w.getD u.length ' ') = true := by decide
  have hneU : ∀ v ∈ utilizeForms, v ≠ [] := by decide
  have hic : searchAny (altMatch contractionForms) text = true ↔
      ∃ i n, AltM contractionForms text i n :=
    searchAny_iff (fun i n => (altMatch_iff contractionForms hformsC text i n).symm)
      (altMatch_bound contractionForms hneC text)
  have hiu : searchAny (altMatch utilizeForms) text = true ↔
      ∃ i n, AltM utilizeForms text i n :=
    searchAny_iff (fun i n => (altMatch_iff utilizeForms hformsU text i n).symm)
      (altMatch_bound utilizeForms hneU text)
  refine ⟨?_, ?_, ?_, ?_⟩
  · intro h
    unfold apply_style_mode
    rw [if_neg h]
  · intro h
    subst h
    unfold apply_style_mode
    have h1 : ("neutral" : String) ≠ "academic" := by decide
    have h2 : ("neutral" : String) ≠ "professional" := by decide
    by_cases hl : lang = "en-US"
    · rw [if_pos hl, if_neg (fun hc => h1 hc.1), if_neg (fun hc => h2 hc.1)]
    · rw [if_neg hl]
  · constructor
    · intro h
      by_cases hl : lang = "en-US"
      case neg =>
        unfold apply_style_mode at h
        rw [if_neg hl] at h
        exact absurd h (by decide)
      by_cases hcond : mode = "academic" ∧ searchAny (altMatch contractionForms) text = true
      case pos => exact ⟨hl, hcond.1, hic.mp hcond.2⟩
      case neg =>
        exfalso
        unfold apply_style_mode at h
        rw [if_pos hl, if_neg hcond] at h
        by_cases hcond2 : mode = "professional" ∧ searchAny (altMatch utilizeForms) text = true
        · rw [if_pos hcond2] at h
          exact absurd h (by decide)
        · rw [if_neg hcond2] at h
          exact absurd h (by decide)
    · rintro ⟨hl, hm, hex⟩
      unfold apply_style_mode
      rw [if_pos hl, if_pos ⟨hm, hic.mpr hex⟩]
  · constructor
    · intro h
      by_cases hl : lang = "en-US"
      case neg =>
        unfold apply_style_mode at h
        rw [if_neg hl] at h
        exact absurd h (by decide)
      by_cases hcond : mode = "academic" ∧ searchAny (altMatch contractionForms) text = true
      case pos =>
        exfalso
        unfold apply_style_mode at h
        rw [if_pos hl, if_pos hcond] at h
        exact absurd h (by decide)
      case neg =>
        unfold apply_style_mode at h
        rw [if_pos hl, if_neg hcond] at h
        by_cases hcond2 : mode = "professional" ∧ searchAny (altMatch utilizeForms) text = true
        · exact ⟨hl, hcond2.1, hiu.mp hcond2.2⟩
        · rw [if_neg hcond2] at h
          exact absurd h (by decide)
    · rintro ⟨hl, hm, hex⟩
      unfold apply_style_mode
      have hm' : ¬ (mode = "academic" ∧ searchAny (altMatch contractionForms) text = true) := by
        rintro ⟨h1, -⟩
        rw [hm] at h1
        exact (by decide : ("professional" : String) ≠ "academic") h1
      rw [if_pos hl, if_neg hm', if_pos ⟨hm, hiu.mpr hex⟩]

/-- C3: one execution of `AnalyzerThread.run` emits exactly one result:
the import-failure error when `language_tool_python` cannot be imported,
the exception's message when the grammar check raises, and otherwise the
grammar issues with the style issues, where the passive-voice and
repetition detectors contribute only when their config flags are set. -/
theorem C3_analyzer_run (importOk : Bool)
    (checkResult : Except String (List GrammarIssue)) (text : List Char)
    (lang : String) (cfg : AnalyzerConfig) :
    (analyzerRun importOk checkResult text lang cfg).length = 1 ∧
    (importOk = false → analyzerRun importOk checkResult text lang cfg =
      [RunEmit.err "language-tool-python"]) ∧
    (∀ e, importOk = true → checkResult = Except.error e →
      analyzerRun importOk checkResult text lang cfg = [RunEmit.err e]) ∧
    (∀ gs, importOk = true → checkResult = Except.ok gs →
      analyzerRun importOk checkResult text lang cfg =
        [RunEmit.ok gs
          ((if cfg.check_passive then
              (if lang = "en-US" then detect_passive_voice_en text
               else if lang = "fr" then detect_passive_voice_fr text else [])
            else [])
           ++ (if cfg.check_repetition then detect_repetitions text 10 else [])
           ++ (if lang = "en-US" then pragmatic_prism_en text else [])
           ++ apply_style_mode text cfg.style_mode lang)]) := by
  refine ⟨?_, ?_, ?_, ?_⟩
  · cases importOk with
    | false => rfl
    | true => cases checkResult <;> rfl
  · intro h
    subst h
    rfl
  · intro e h1 h2
    subst h1
    subst h2
    rfl
  · intro gs h1 h2
    subst h1
    subst h2
    rfl

/-- C6: `lookup_french` returns the pos, def and ex fields of the
lexicon entry of the lowercased word when present, and otherwise exactly
the fixed not-found entry; it is a total function over the embedded
table (no exception, no external resource). -/
theorem C6_lookup_french (w : String) :
    (∀ e, alookup (pyLower w) FRENCH_LEXICON = some e →
      lookup_french w = FrenchEntry.mk e.pos e.defn e.ex) ∧
    (alookup (pyLower w) FRENCH_LEXICON = none →
      lookup_french w =
        FrenchEntry.mk "" "Mot non trouvé dans le dictionnaire français." "") := by
  constructor
  · intro e he
    unfold lookup_french
    rw [he]
  · intro he
    unfold lookup_french
    rw [he]

/-- C10: the French dictionary lookup is case-insensitive: looking up a
word equals looking up its lowercased form. -/
theorem C10_lookup_french_case (w : String) :
    lookup_french w = lookup_french (pyLower w) := by
  unfold lookup_french
  rw [pyLower_idem]

/-- C7: `get_config` always contains the six default keys: it returns
exactly the defaults when the file is absent or unparsable, and for a
parsed file every default key keeps its saved value when present and is
filled with its default value when absent. -/
theorem C7_get_config (fs : ConfigFile) :
    (∀ k ∈ defaultConfig.map Prod.fst, (alookup k (get_config fs)).isSome = true) ∧
    (get_config ConfigFile.absent = defaultConfig) ∧
    (get_config ConfigFile.unparsable = defaultConfig) ∧
    (∀ saved k dv, fs = ConfigFile.parsed saved →
      alookup k defaultConfig = some dv →
      alookup k (get_config fs) = some ((alookup k saved).getD dv)) := by
  refine ⟨?_, rfl, rfl, ?_⟩
  · intro k hk
    cases fs with
    | absent => exact alookup_isSome_of_mem k defaultConfig hk
    | unparsable => exact alookup_isSome_of_mem k defaultConfig hk
    | parsed saved =>
      show (alookup k (defaultConfig.foldl
        (fun acc kv => if alookup kv.1 acc = none then acc ++ [kv] else acc) saved)).isSome = true
      rw [alookup_fold]
      cases hs : alookup k saved with
      | some v => rfl
      | none =>
        simpa using alookup_isSome_of_mem k defaultConfig hk
  · intro saved k dv hfs hdv
    subst hfs
    show alookup k (defaultConfig.foldl
      (fun acc kv => if alookup kv.1 acc = none then acc ++ [kv] else acc) saved) = _
    rw [alookup_fold]
    cases hs : alookup k saved with
    | some v => rfl
    | none => simp [hdv]

/-- C9: the statistics of `export_report` agree with the rest of the
program: its word and sentence counts equal those of `show_stats`, and
its passive-voice count equals the number of pairs
`detect_passive_voice_en` returns, because the three sites use the same
formulas and the same regular expression. -/
theorem C9_report_stats_consistent (text : List Char) :
    exportWords text = statsWords text ∧
    exportSentences text = statsSentences text ∧
    exportPassiveCount text = (detect_passive_voice_en text).length := by
  refine ⟨rfl, rfl, ?_⟩
  unfold exportPassiveCount detect_passive_voice_en
  rw [List.length_map]

/-- C2 (the code reads a key no table defines): the translation table
holds exactly the languages en and fr with identical key lists, and of
all the keys the application reads from `self.tr`, every one except
`export_html` is present in both tables; `export_html`, which
`export_report` reads at src/Correcto.py line 679, is present in
neither, so that read raises a `KeyError`. -/
theorem C2_export_html_missing :
    TRANSLATIONS.map Prod.fst = ["en", "fr"] ∧
    TRANSLATIONS_en.map Prod.fst = TRANSLATIONS_fr.map Prod.fst ∧
    "export_html" ∈ keysReadByApp ∧
    alookup "export_html" TRANSLATIONS_en = none ∧
    alookup "export_html" TRANSLATIONS_fr = none ∧
    (∀ k ∈ keysReadByApp, k ≠ "export_html" →
      (alookup k TRANSLATIONS_en).isSome = true ∧
      (alookup k TRANSLATIONS_fr).isSome = true) := by
  decide

/-! C1 concerns the claim that every style check, `detect_repetitions`
included, is equivalent to the match list of one regular-expression
scan. A single scan (`re.finditer`, and `re.findall` built on it) emits
matches at strictly increasing start positions, each within
`0..len(text)`: after a non-empty match scanning resumes at its end,
and after an empty match the position advances by one. So a scan over a
text produces at most `len(text) + 1` matches, while the windowed
pairwise comparison of `detect_repetitions` can produce more entries
than that. -/

/-- The start positions of the match list of one regular-expression
scan over `cs`. -/
def ScanStarts (cs : List Char) (starts : List Nat) : Prop :=
  List.Chain' (· < ·) starts ∧ ∀ s ∈ starts, s ≤ cs.length

theorem scanStarts_length_le (cs : List Char) (starts : List Nat)
    (h : ScanStarts cs starts) : starts.length ≤ cs.length + 1 := by
  obtain ⟨hch, hb⟩ := h
  have hpw : starts.Pairwise (· < ·) := List.chain'_iff_pairwise.mp hch
  have hnd : starts.Nodup := hpw.imp Nat.ne_of_lt
  have hsub : starts.toFinset ⊆ Finset.range (cs.length + 1) := by
    intro x hx
    rw [List.mem_toFinset] at hx
    rw [Finset.mem_range]
    have := hb x hx
    omega
  have hcard := Finset.card_le_card hsub
  rw [List.toFinset_card_of_nodup hnd] at hcard
  simpa using hcard

/-- Twelve repetitions of the word "word": 59 characters, within which
`detect_repetitions` finds 65 repeated pairs. -/
def repText : List Char :=
  String.toList "word word word word word word word word word word word word"

/-- C1 counterexample: on `repText`, no list with the shape of a single
regular-expression scan's match list (strictly increasing start
positions within the text) has as many entries as
`detect_repetitions repText` returns, so the repetition check is not
equivalent to the match list of one regular-expression scan. -/
theorem C1_counterexample :
    ¬ ∃ starts : List Nat, ScanStarts repText starts ∧
      starts.length = (detect_repetitions repText 10).length := by
  rintro ⟨starts, hscan, hlen⟩
  have h1 : starts.length ≤ repText.length + 1 := scanStarts_length_le _ _ hscan
  have h2 : repText.length + 1 = 60 := by decide
  have h3 : (detect_repetitions repText 10).length = 65 := by decide
  omega

/-- Spec-side definition following the claim's words: the windowed
pairwise comparison over word positions — one entry per pair `(i, j)`
of token positions with `i < j ≤ i + window` whose tokens are equal and
longer than 3 characters, in lexicographic order of `(i, j)`. -/
def repetitionPairsSpec (ws : List (List Char)) (window : Nat) : List (List Char) :=
  (List.range ws.length).flatMap (fun i =>
    ((List.range ws.length).filter (fun j => decide (i < j ∧ j ≤ i + window))).filterMap
      (fun j =>
        if ws.getD i [] = ws.getD j [] ∧ 3 < (ws.getD i []).length then
          some (ws.getD i [])
        else none))

/-- C1 as amended: the passive-voice, hedge and style-mode checks are
single regular-expression scans (their theorems state this through
`MatchList`), but `detect_repetitions` is not one scan: it tokenizes the
lowercased text with one `findall` scan and then performs a windowed
pairwise comparison over word positions, emitting one entry per
qualifying pair. -/
theorem C1_amended_repetitions (text : List Char) (window : Nat) :
    detect_repetitions text window =
      (repetitionPairsSpec (wordTokensOf text) window).map (fun w =>
        ("Repetition of '" ++ String.mk w ++ "'", String.mk w)) := by
  unfold detect_repetitions repetitionPairsSpec
  rw [List.map_flatMap]
  congr 1
  funext i
  rw [range'_window i window (wordTokensOf text).length]
  rw [List.map_filterMap]
  congr 1
  funext j
  by_cases hcond : (wordTokensOf text).getD i [] = (wordTokensOf text).getD j [] ∧
      3 < ((wordTokensOf text).getD i []).length
  · rw [if_pos hcond, if_pos hcond]
    rfl
  · rw [if_neg hcond, if_neg hcond]
    rfl
